import Mathlib

/-!
Verification of MongoDBBlockInputStream
(src/dbms/include/DB/Dictionaries/MongoDBBlockInputStream.h).

The header turns a MongoDB cursor into a sequence of Blocks: at
construction it binds each column of the sample block to a scalar kind
(value_type_t), and each readImpl call pulls up to max_block_size
records, coercing each present field and defaulting each absent one.

Shallow embedding conventions:
- the cursor is the list of records it will yield; cursor->more() is
  nonemptiness of the remaining list and cursor->next() removes the head;
- a record (BSONObj) is an association list from field names to BSON
  values; operator[] is first-match lookup;
- a column is a list of tagged cells (CHValue); the tag records which
  concrete Column class the insert was performed through, so that a cast
  to the wrong column class (as in the UInt8 case of insertValue, which
  casts to ColumnFloat64) is visible in the model;
- exceptions are Except.error; a thrown coercion error destroys the
  in-progress block, so per-row column updates are modelled as one
  simultaneous append (rowCells + zipWith), which is observationally
  equal to the source's in-order per-field appends;
- machine integers are Nat / Int with explicit reduction modulo 2^w at
  the points where the source converts to a narrower type;
- floating point values are modelled at integer points only (the claims
  under study never depend on non-integral doubles).
-/

namespace MongoDB

/-- BSON runtime type tags (the subset distinguished by the source,
plus an opaque constructor for every other tag). -/
inductive BSONType
  | Bool
  | NumberDouble
  | NumberInt
  | NumberLong
  | String
  | Date
  | Other (name : String)
deriving DecidableEq

/-- mongo::typeName, as used in the Type mismatch messages. -/
def typeName : BSONType → String
  | .Bool => "Bool"
  | .NumberDouble => "NumberDouble"
  | .NumberInt => "NumberInt"
  | .NumberLong => "NumberLong"
  | .String => "String"
  | .Date => "Date"
  | .Other n => n

/-- Reduce an integer to the unsigned machine word of width w
(the effect of converting to an unsigned w-bit column element). -/
def wrapUnsigned (w : Nat) (n : Int) : Nat :=
  (n % ((2 : Int) ^ w)).toNat

/-- Reduce an integer to the signed two's-complement word of width w
(the effect of converting to a signed w-bit integer). -/
def wrapSigned (w : Nat) (n : Int) : Int :=
  if n % ((2 : Int) ^ w) < (2 : Int) ^ (w - 1) then n % ((2 : Int) ^ w)
  else n % ((2 : Int) ^ w) - (2 : Int) ^ w

/-- A dynamically typed BSON value (mongo::BSONElement that is ok()).
Numeric payloads are mathematical integers; a Date payload is the
Date_t milliseconds-since-epoch counter (unsigned). -/
inductive BSONValue
  | boolean (b : Bool)
  | numberInt32 (n : Int)
  | numberInt64 (n : Int)
  | numberDouble (n : Int)
  | string (s : String)
  | date (millis : Nat)
  | other (tag : BSONType)
deriving DecidableEq

/-- BSONElement::type. -/
def BSONValue.type : BSONValue → BSONType
  | .boolean _ => .Bool
  | .numberInt32 _ => .NumberInt
  | .numberInt64 _ => .NumberLong
  | .numberDouble _ => .NumberDouble
  | .string _ => .String
  | .date _ => .Date
  | .other t => t

/-- BSONElement::isNumber: true exactly for the three numeric tags. -/
def BSONValue.isNumber : BSONValue → Bool
  | .numberInt32 _ => true
  | .numberInt64 _ => true
  | .numberDouble _ => true
  | _ => false

/-- BSONElement::boolean (meaningful only under the Bool tag). -/
def BSONValue.boolVal : BSONValue → Bool
  | .boolean b => b
  | _ => false

/-- BSONElement::numberInt: the value read through the C int (32-bit)
interface.  An int32 payload is stored as a 32-bit word, so reading it
normalises to the int32 range; long and double payloads are converted
by truncation to 32 bits. -/
def BSONValue.numberInt : BSONValue → Int
  | .numberInt32 n => wrapSigned 32 n
  | .numberInt64 n => wrapSigned 32 n
  | .numberDouble n => wrapSigned 32 n
  | _ => 0

/-- BSONElement::numberLong: the value read through the long long
(64-bit) interface. -/
def BSONValue.numberLong : BSONValue → Int
  | .numberInt32 n => wrapSigned 32 n
  | .numberInt64 n => wrapSigned 64 n
  | .numberDouble n => wrapSigned 64 n
  | _ => 0

/-- BSONElement::number: the value read through the double interface
(modelled at integer points). -/
def BSONValue.numberVal : BSONValue → Int
  | .numberInt32 n => wrapSigned 32 n
  | .numberInt64 n => wrapSigned 64 n
  | .numberDouble n => n
  | _ => 0

/-- BSONElement::String. -/
def BSONValue.stringVal : BSONValue → String
  | .string s => s
  | _ => ""

/-- Date_t::toTimeT: milliseconds truncated to whole seconds. -/
def BSONValue.dateToTimeT : BSONValue → Nat
  | .date millis => millis / 1000
  | _ => 0

/-- Modelled from the spec: DateLUT::instance().toDayNum is not part of
this source tree; per the spec a timestamp is truncated to a
day-granularity day-number since the fixed epoch. -/
def toDayNum (t : Nat) : Nat := t / 86400

/-- The scalar kinds of the stream (enum struct value_type_t). -/
inductive value_type_t
  | UInt8
  | UInt16
  | UInt32
  | UInt64
  | Int8
  | Int16
  | Int32
  | Int64
  | Float32
  | Float64
  | String
  | Date
  | DateTime
deriving DecidableEq

/-- The kinds whose insertValue case guards on isNumber (every kind
except UInt8, String, Date and DateTime). -/
def isNumericKind : value_type_t → Bool
  | .UInt16 => true
  | .UInt32 => true
  | .UInt64 => true
  | .Int8 => true
  | .Int16 => true
  | .Int32 => true
  | .Int64 => true
  | .Float32 => true
  | .Float64 => true
  | _ => false

/-- A cell of a column, tagged with the concrete Column class whose
insert produced it (ColumnUInt8, ..., ColumnString). -/
inductive CHValue
  | uint8 (n : Nat)
  | uint16 (n : Nat)
  | uint32 (n : Nat)
  | uint64 (n : Nat)
  | int8 (n : Int)
  | int16 (n : Int)
  | int32 (n : Int)
  | int64 (n : Int)
  | float32 (n : Int)
  | float64 (n : Int)
  | string (s : String)
deriving DecidableEq

/-- The errors thrown by the stream, as structured data: the
UNKNOWN_TYPE message carries the descriptor name, the TYPE_MISMATCH
message carries the expected representation and the actual tag name. -/
inductive Err
  | unsupportedType (descriptor : String)
  | typeMismatch (expected : String) (got : String)
deriving DecidableEq

/-- MongoDBBlockInputStream::insertValue: validate the runtime tag of a
present value against the field's kind and produce the cell appended to
the column.  Note the UInt8 case of the source casts the column to
ColumnFloat64 (line 147), so its cell carries the float64 tag. -/
def insertValue (t : value_type_t) (value : BSONValue) : Except Err CHValue :=
  match t with
  | .UInt8 =>
    if value.type ≠ .Bool then
      .error (.typeMismatch "Bool" (typeName value.type))
    else
      .ok (.float64 (if value.boolVal then 1 else 0))
  | .UInt16 =>
    if ¬ value.isNumber then
      .error (.typeMismatch "a number" (typeName value.type))
    else
      .ok (.uint16 (wrapUnsigned 16 value.numberInt))
  | .UInt32 =>
    if ¬ value.isNumber then
      .error (.typeMismatch "a number" (typeName value.type))
    else
      .ok (.uint32 (wrapUnsigned 32 value.numberInt))
  | .UInt64 =>
    if ¬ value.isNumber then
      .error (.typeMismatch "a number" (typeName value.type))
    else
      .ok (.uint64 (wrapUnsigned 64 value.numberLong))
  | .Int8 =>
    if ¬ value.isNumber then
      .error (.typeMismatch "a number" (typeName value.type))
    else
      .ok (.int8 (wrapSigned 8 value.numberInt))
  | .Int16 =>
    if ¬ value.isNumber then
      .error (.typeMismatch "a number" (typeName value.type))
    else
      .ok (.int16 (wrapSigned 16 value.numberInt))
  | .Int32 =>
    if ¬ value.isNumber then
      .error (.typeMismatch "a number" (typeName value.type))
    else
      .ok (.int32 value.numberInt)
  | .Int64 =>
    if ¬ value.isNumber then
      .error (.typeMismatch "a number" (typeName value.type))
    else
      .ok (.int64 value.numberLong)
  | .Float32 =>
    if ¬ value.isNumber then
      .error (.typeMismatch "a number" (typeName value.type))
    else
      .ok (.float32 value.numberVal)
  | .Float64 =>
    if ¬ value.isNumber then
      .error (.typeMismatch "a number" (typeName value.type))
    else
      .ok (.float64 value.numberVal)
  | .String =>
    if value.type ≠ .String then
      .error (.typeMismatch "String" (typeName value.type))
    else
      .ok (.string value.stringVal)
  | .Date =>
    if value.type ≠ .Date then
      .error (.typeMismatch "Date" (typeName value.type))
    else
      .ok (.uint16 (wrapUnsigned 16 (Int.ofNat (toDayNum value.dateToTimeT))))
  | .DateTime =>
    if value.type ≠ .Date then
      .error (.typeMismatch "Date" (typeName value.type))
    else
      .ok (.uint32 (wrapUnsigned 32 (Int.ofNat value.dateToTimeT)))

/-- MongoDBBlockInputStream::insertDefaultValue: the cell appended for
an absent field; here every cast matches the column's declared type. -/
def insertDefaultValue : value_type_t → CHValue
  | .UInt8 => .uint8 0
  | .UInt16 => .uint16 0
  | .UInt32 => .uint32 0
  | .UInt64 => .uint64 0
  | .Int8 => .int8 0
  | .Int16 => .int16 0
  | .Int32 => .int32 0
  | .Int64 => .int64 0
  | .Float32 => .float32 0
  | .Float64 => .float64 0
  | .String => .string ""
  | .Date => .uint16 0
  | .DateTime => .uint32 0

/-- Modelled from the spec: the zero value of each scalar kind, in the
spec's words — numeric zero, empty string, or epoch-zero date /
date-time — used to compare insertDefaultValue against the spec. -/
def zeroScalar : value_type_t → CHValue
  | .UInt8 => .uint8 0
  | .UInt16 => .uint16 0
  | .UInt32 => .uint32 0
  | .UInt64 => .uint64 0
  | .Int8 => .int8 0
  | .Int16 => .int16 0
  | .Int32 => .int32 0
  | .Int64 => .int64 0
  | .Float32 => .float32 0
  | .Float64 => .float64 0
  | .String => .string ""
  | .Date => .uint16 0
  | .DateTime => .uint32 0

/-- A source record: named, optionally absent fields (BSONObj). -/
abbrev Record := List (String × BSONValue)

/-- BSONObj::operator[]: first field with the given name, if any
(value.ok() is the some case). -/
def lookupField (r : Record) (name : String) : Option BSONValue :=
  (r.find? (fun p => p.1 == name)).map (fun p => p.2)

/-- One field of one row: a present value goes through insertValue, an
absent one through insertDefaultValue (readImpl lines 118-125). -/
def coerceField (t : value_type_t) : Option BSONValue → Except Err CHValue
  | some v => insertValue t v
  | none => .ok (insertDefaultValue t)

/-- The cells appended for one record, one per schema field in order;
the first failing field throws, destroying the in-progress block. -/
def rowCells (fields : List (String × value_type_t)) (row : Record) :
    Except Err (List CHValue) :=
  match fields with
  | [] => .ok []
  | f :: fs =>
    match coerceField f.2 (lookupField row f.1) with
    | .error e => .error e
    | .ok cell =>
      match rowCells fs row with
      | .error e => .error e
      | .ok rest => .ok (cell :: rest)

/-- Decidable success of one row. -/
def rowOk (fields : List (String × value_type_t)) (row : Record) : Bool :=
  match rowCells fields row with
  | .ok _ => true
  | .error _ => false

/-- The while loop of readImpl (lines 113-130): pull records while the
cursor has more, appending one cell to every column per record, and
stop once num_rows reaches max_block_size. -/
def readLoop (fields : List (String × value_type_t)) (maxBS : Nat) :
    List Record → Nat → List (List CHValue) →
    Except Err (List (List CHValue) × List Record)
  | [], _, cols => .ok (cols, [])
  | r :: rs, numRows, cols =>
    match rowCells fields r with
    | .error e => .error e
    | .ok cells =>
      let cols2 := List.zipWith (fun c x => c ++ [x]) cols cells
      if numRows + 1 = maxBS then .ok (cols2, rs)
      else readLoop fields maxBS rs (numRows + 1) cols2

/-- A Block: one column per schema field, in schema order. -/
structure Block where
  columns : List (List CHValue)
deriving DecidableEq

/-- Block::rows: the common length of the columns (0 if there are no
columns); the terminal empty Block {} has no columns. -/
def Block.rows (b : Block) : Nat :=
  match b.columns with
  | [] => 0
  | c :: _ => c.length

/-- The state of a stream between readImpl calls: the bound (name,
kind) list, the records the cursor has not yet yielded, and
max_block_size. -/
structure StreamState where
  fields : List (String × value_type_t)
  records : List Record
  max_block_size : Nat
deriving DecidableEq

/-- MongoDBBlockInputStream::readImpl: return the empty Block {} if the
cursor is exhausted (lines 101-102), otherwise clone the sample block
empty and run the fill loop. -/
def readImpl (s : StreamState) : Except Err (Block × StreamState) :=
  match s.records with
  | [] => .ok (Block.mk [], s)
  | _ :: _ =>
    match readLoop s.fields s.max_block_size s.records 0
        (List.replicate s.fields.length ([] : List CHValue)) with
    | .error e => .error e
    | .ok (cols, rest) =>
      .ok (Block.mk cols, { s with records := rest })

/-- The type descriptors the constructor can see (the IDataType pointer
of the sample block column; one opaque constructor for every other
descriptor). -/
inductive IDataType
  | UInt8
  | UInt16
  | UInt32
  | UInt64
  | Int8
  | Int16
  | Int32
  | Int64
  | Float32
  | Float64
  | String
  | Date
  | DateTime
  | other (name : String)
deriving DecidableEq

/-- IDataType::getName. -/
def dataTypeName : IDataType → String
  | .UInt8 => "UInt8"
  | .UInt16 => "UInt16"
  | .UInt32 => "UInt32"
  | .UInt64 => "UInt64"
  | .Int8 => "Int8"
  | .Int16 => "Int16"
  | .Int32 => "Int32"
  | .Int64 => "Int64"
  | .Float32 => "Float32"
  | .Float64 => "Float64"
  | .String => "String"
  | .Date => "Date"
  | .DateTime => "DateTime"
  | .other n => n

/-- The typeid_cast chain of the constructor (lines 53-83), branch for
branch.  Note the second test against Int64 (source line 71): the
branch that pushes value_type_t::Float64 repeats the DataTypeInt64
test, so it is dead, and a Float64 descriptor falls through to the
Unsupported type exception. -/
def bindValueType (t : IDataType) : Except Err value_type_t :=
  if t = .UInt8 then .ok .UInt8
  else if t = .UInt16 then .ok .UInt16
  else if t = .UInt32 then .ok .UInt32
  else if t = .UInt64 then .ok .UInt64
  else if t = .Int8 then .ok .Int8
  else if t = .Int16 then .ok .Int16
  else if t = .Int32 then .ok .Int32
  else if t = .Int64 then .ok .Int64
  else if t = .Float32 then .ok .Float32
  else if t = .Int64 then .ok .Float64
  else if t = .String then .ok .String
  else if t = .Date then .ok .Date
  else if t = .DateTime then .ok .DateTime
  else .error (.unsupportedType (dataTypeName t))

/-- The constructor's per-column loop (lines 48-86): bind every column
in order, throwing at the first descriptor with no mapping. -/
def bindFields : List (String × IDataType) → Except Err (List (String × value_type_t))
  | [] => .ok []
  | c :: cs =>
    match bindValueType c.2 with
    | .error e => .error e
    | .ok t =>
      match bindFields cs with
      | .error e => .error e
      | .ok rest => .ok ((c.1, t) :: rest)

/-- The constructor (lines 39-87): if the cursor reports no rows it
returns at once, leaving types and names empty (line 43-44); otherwise
it binds every column.  Only cursor->more() is consulted; no record is
read. -/
def mkStream (cursor : List Record) (sample_block : List (String × IDataType))
    (max_block_size : Nat) : Except Err StreamState :=
  match cursor with
  | [] => .ok ⟨[], [], max_block_size⟩
  | _ :: _ =>
    match bindFields sample_block with
    | .error e => .error e
    | .ok fields => .ok ⟨fields, cursor, max_block_size⟩

/-- Iterate readImpl until the cursor is exhausted, collecting the
non-terminal blocks; fuel bounds the recursion and the record count is
always enough fuel. -/
def produceBlocksAux : Nat → StreamState → Except Err (List Block × StreamState)
  | 0, s => .ok ([], s)
  | fuel + 1, s =>
    match s.records with
    | [] => .ok ([], s)
    | _ :: _ =>
      match readImpl s with
      | .error e => .error e
      | .ok (b, s2) =>
        match produceBlocksAux fuel s2 with
        | .error e => .error e
        | .ok (bs, s3) => .ok (b :: bs, s3)

/-- All blocks a stream produces before the terminal empty Block. -/
def produceBlocks (s : StreamState) : Except Err (List Block × StreamState) :=
  produceBlocksAux s.records.length s

/-- The expected batch-size sequence for n-bounded batching of k rows
(meaningful for 0 < n). -/
def batchSizes : Nat → Nat → List Nat
  | _, 0 => []
  | 0, k + 1 => [k + 1]
  | n + 1, k + 1 =>
    if k + 1 ≤ n + 1 then [k + 1]
    else (n + 1) :: batchSizes (n + 1) (k - n)
termination_by n k => k
decreasing_by omega

/-! ## Helper lemmas -/

theorem rowCells_length {fields : List (String × value_type_t)} {row : Record}
    {cells : List CHValue} (h : rowCells fields row = .ok cells) :
    cells.length = fields.length := by
  induction fields generalizing cells with
  | nil =>
    simp only [rowCells, Except.ok.injEq] at h
    subst h
    rfl
  | cons f fs ih =>
    simp only [rowCells] at h
    cases hcell : coerceField f.2 (lookupField row f.1) with
    | error e => simp [hcell] at h
    | ok cell =>
      simp only [hcell] at h
      cases hrest : rowCells fs row with
      | error e => simp [hrest] at h
      | ok rest =>
        simp only [hrest, Except.ok.injEq] at h
        subst h
        simp [ih hrest]

theorem rowCells_get {fields : List (String × value_type_t)} {row : Record}
    {cells : List CHValue} (h : rowCells fields row = .ok cells)
    {i : Nat} {nm : String} {t : value_type_t}
    (hi : fields[i]? = some (nm, t)) :
    ∃ c, cells[i]? = some c ∧ coerceField t (lookupField row nm) = .ok c := by
  induction fields generalizing cells i with
  | nil => simp at hi
  | cons f fs ih =>
    simp only [rowCells] at h
    cases hcell : coerceField f.2 (lookupField row f.1) with
    | error e => simp [hcell] at h
    | ok cell =>
      simp only [hcell] at h
      cases hrest : rowCells fs row with
      | error e => simp [hrest] at h
      | ok rest =>
        simp only [hrest, Except.ok.injEq] at h
        subst h
        match i with
        | 0 =>
          simp only [List.getElem?_cons_zero, Option.some.injEq] at hi
          subst hi
          exact ⟨cell, List.getElem?_cons_zero, hcell⟩
        | i + 1 =>
          simp only [List.getElem?_cons_succ] at hi ⊢
          exact ih hrest hi

theorem rowOk_ok {fields : List (String × value_type_t)} {row : Record}
    (h : rowOk fields row = true) : ∃ cells, rowCells fields row = .ok cells := by
  unfold rowOk at h
  cases hc : rowCells fields row with
  | error e => rw [hc] at h; cases h
  | ok cells => exact ⟨cells, rfl⟩

theorem zipWith_append_map_length {cols : List (List CHValue)} {cells : List CHValue}
    (h : cols.length = cells.length) :
    (List.zipWith (fun c x => c ++ [x]) cols cells).map List.length
      = cols.map (fun c => c.length + 1) := by
  induction cols generalizing cells with
  | nil => simp
  | cons c cs ih =>
    cases cells with
    | nil => simp at h
    | cons x xs =>
      simp only [List.length_cons, Nat.succ.injEq] at h
      simp [ih h]

theorem readLoop_length {fields : List (String × value_type_t)} {maxBS : Nat}
    {rs : List Record} {numRows : Nat} {cols cols2 : List (List CHValue)}
    {rest : List Record}
    (h : readLoop fields maxBS rs numRows cols = .ok (cols2, rest))
    (hlen : cols.length = fields.length) :
    cols2.length = fields.length := by
  induction rs generalizing numRows cols with
  | nil =>
    simp only [readLoop, Except.ok.injEq, Prod.mk.injEq] at h
    rw [← h.1]
    exact hlen
  | cons r rs ih =>
    simp only [readLoop] at h
    cases hcells : rowCells fields r with
    | error e => simp [hcells] at h
    | ok cells =>
      simp only [hcells] at h
      have hzlen : (List.zipWith (fun c x => c ++ [x]) cols cells).length
          = fields.length := by
        rw [List.length_zipWith, hlen, rowCells_length hcells]
        exact Nat.min_self _
      by_cases hstop : numRows + 1 = maxBS
      · simp only [if_pos hstop, Except.ok.injEq, Prod.mk.injEq] at h
        rw [← h.1]
        exact hzlen
      · simp only [if_neg hstop] at h
        exact ih h hzlen

theorem readLoop_extends {fields : List (String × value_type_t)} {maxBS : Nat}
    {rs : List Record} {numRows : Nat} {cols cols2 : List (List CHValue)}
    {rest : List Record}
    (h : readLoop fields maxBS rs numRows cols = .ok (cols2, rest))
    (hlen : cols.length = fields.length) :
    ∀ (i : Nat) (c : List CHValue), cols[i]? = some c →
      ∃ tail, cols2[i]? = some (c ++ tail) := by
  induction rs generalizing numRows cols with
  | nil =>
    simp only [readLoop, Except.ok.injEq, Prod.mk.injEq] at h
    obtain ⟨h1, h2⟩ := h
    subst h1
    intro i c hc
    refine ⟨[], ?_⟩
    simpa using hc
  | cons r rs ih =>
    simp only [readLoop] at h
    cases hcells : rowCells fields r with
    | error e => simp [hcells] at h
    | ok cells =>
      simp only [hcells] at h
      intro i c hc
      have hi : i < cells.length := by
        rw [rowCells_length hcells, ← hlen]
        exact List.getElem?_eq_some.mp hc |>.choose
      have hx : cells[i]? = some cells[i] := List.getElem?_eq_getElem hi
      have hzip : (List.zipWith (fun c x => c ++ [x]) cols cells)[i]?
          = some (c ++ [cells[i]]) := by
        rw [List.getElem?_zipWith', hc, hx]
        rfl
      have hzlen : (List.zipWith (fun c x => c ++ [x]) cols cells).length
          = fields.length := by
        rw [List.length_zipWith, hlen, rowCells_length hcells]
        exact Nat.min_self _
      by_cases hstop : numRows + 1 = maxBS
      · simp only [if_pos hstop, Except.ok.injEq, Prod.mk.injEq] at h
        rw [← h.1]
        exact ⟨[cells[i]], hzip⟩
      · simp only [if_neg hstop] at h
        obtain ⟨tail2, ht⟩ := ih h hzlen i (c ++ [cells[i]]) hzip
        exact ⟨[cells[i]] ++ tail2, by simpa [List.append_assoc] using ht⟩

theorem readLoop_spec {fields : List (String × value_type_t)} {maxBS : Nat} :
    ∀ {rs : List Record} {numRows : Nat} {cols : List (List CHValue)},
    (∀ r ∈ rs, rowOk fields r = true) → cols.length = fields.length →
    numRows < maxBS →
    ∃ cols2, readLoop fields maxBS rs numRows cols
        = .ok (cols2, rs.drop (min (maxBS - numRows) rs.length)) ∧
      cols2.map List.length
        = cols.map (fun c => c.length + min (maxBS - numRows) rs.length) := by
  intro rs
  induction rs with
  | nil =>
    intro numRows cols hok hlen hnum
    refine ⟨cols, by simp [readLoop], by simp⟩
  | cons r rs ih =>
    intro numRows cols hok hlen hnum
    obtain ⟨cells, hcells⟩ := rowOk_ok (hok r (List.mem_cons_self r rs))
    have hclen : cols.length = cells.length := by
      rw [hlen, rowCells_length hcells]
    have hzmap := zipWith_append_map_length hclen
    have hzlen : (List.zipWith (fun c x => c ++ [x]) cols cells).length
        = fields.length := by
      rw [List.length_zipWith, hlen, rowCells_length hcells]
      exact Nat.min_self _
    by_cases hstop : numRows + 1 = maxBS
    · have hm : min (maxBS - numRows) (r :: rs).length = 1 := by
        simp only [List.length_cons]
        omega
      refine ⟨List.zipWith (fun c x => c ++ [x]) cols cells, ?_, ?_⟩
      · rw [hm]
        simp [readLoop, hcells, if_pos hstop, List.drop_one]
      · rw [hzmap, hm]
    · have hnum2 : numRows + 1 < maxBS := by omega
      obtain ⟨cols3, hrun, hmap⟩ :=
        ih (fun r2 hr2 => hok r2 (List.mem_cons_of_mem r hr2)) hzlen hnum2
      have hm : min (maxBS - numRows) (r :: rs).length
          = min (maxBS - (numRows + 1)) rs.length + 1 := by
        simp only [List.length_cons]
        omega
      refine ⟨cols3, ?_, ?_⟩
      · rw [hm]
        simp only [readLoop, hcells, if_neg hstop, List.drop_succ_cons]
        exact hrun
      · have h1 : cols3.map List.length
            = (List.map List.length (List.zipWith (fun c x => c ++ [x]) cols cells)).map
              (fun x => x + min (maxBS - (numRows + 1)) rs.length) := by
          rw [List.map_map]
          exact hmap
        rw [h1, hzmap, List.map_map, hm]
        congr 1
        funext c
        simp only [Function.comp]
        omega

theorem readImpl_spec {fields : List (String × value_type_t)} {rs : List Record}
    {n : Nat} (hne : rs ≠ []) (hn : 0 < n)
    (hok : ∀ r ∈ rs, rowOk fields r = true) :
    ∃ cols2, readImpl ⟨fields, rs, n⟩
        = .ok (Block.mk cols2, ⟨fields, rs.drop (min n rs.length), n⟩) ∧
      cols2.length = fields.length ∧
      cols2.map List.length = List.replicate fields.length (min n rs.length) := by
  obtain ⟨cols2, hrun, hmap⟩ :=
    @readLoop_spec fields n rs 0 (List.replicate fields.length ([] : List CHValue))
      hok (by simp) hn
  have hlen2 : cols2.length = fields.length := by
    have := congrArg List.length hmap
    simpa using this
  refine ⟨cols2, ?_, hlen2, ?_⟩
  · cases rs with
    | nil => exact absurd rfl hne
    | cons r rs' =>
      simp only [readImpl]
      rw [hrun]
      simp
  · rw [hmap, List.map_replicate]
    simp

theorem batchSizes_zero {n : Nat} : batchSizes n 0 = [] := by
  simp [batchSizes]

theorem batchSizes_pos {n k : Nat} (hn : 0 < n) (hk : 0 < k) :
    batchSizes n k = if k ≤ n then [k] else n :: batchSizes n (k - n) := by
  match n, k with
  | n + 1, k + 1 =>
    have he : k + 1 - (n + 1) = k - n := by omega
    simp only [batchSizes, he]

theorem batchSizes_ne_nil {n k : Nat} (hn : 0 < n) (hk : 0 < k) :
    batchSizes n k ≠ [] := by
  rw [batchSizes_pos hn hk]
  split <;> simp

theorem batchSizes_length {n : Nat} (hn : 0 < n) :
    ∀ k, (batchSizes n k).length = (k + n - 1) / n := by
  intro k
  induction k using Nat.strong_induction_on with
  | _ k ih =>
    rcases Nat.eq_zero_or_pos k with hk | hk
    · subst hk
      rw [batchSizes_zero]
      simp only [List.length_nil]
      symm
      apply Nat.div_eq_of_lt
      omega
    · rw [batchSizes_pos hn hk]
      by_cases hkn : k ≤ n
      · rw [if_pos hkn]
        simp only [List.length_cons, List.length_nil]
        symm
        have h2 : k + n - 1 < (1 + 1) * n := by omega
        have h1 : 1 * n ≤ k + n - 1 := by omega
        simpa using Nat.div_eq_of_lt_le h1 h2
      · rw [if_neg hkn]
        simp only [List.length_cons]
        rw [ih (k - n) (by omega)]
        have h1 : k - n + n - 1 = k - 1 := by omega
        have h2 : k + n - 1 = (k - 1) + n := by omega
        rw [h1, h2, Nat.add_div_right _ hn]

theorem batchSizes_mid {n : Nat} (hn : 0 < n) :
    ∀ k i, i + 1 < (batchSizes n k).length → (batchSizes n k)[i]? = some n := by
  intro k
  induction k using Nat.strong_induction_on with
  | _ k ih =>
    intro i hi
    rcases Nat.eq_zero_or_pos k with hk | hk
    · subst hk
      rw [batchSizes_zero] at hi
      simp at hi
    · rw [batchSizes_pos hn hk] at hi ⊢
      by_cases hkn : k ≤ n
      · rw [if_pos hkn] at hi
        simp only [List.length_cons, List.length_nil] at hi
        omega
      · rw [if_neg hkn] at hi ⊢
        match i with
        | 0 => exact List.getElem?_cons_zero
        | i + 1 =>
          rw [List.getElem?_cons_succ]
          apply ih (k - n) (by omega)
          simp only [List.length_cons] at hi
          omega

theorem batchSizes_last {n : Nat} (hn : 0 < n) :
    ∀ k, 0 < k →
    (batchSizes n k).getLast? = some (if k % n = 0 then n else k % n) := by
  intro k
  induction k using Nat.strong_induction_on with
  | _ k ih =>
    intro hk
    rw [batchSizes_pos hn hk]
    by_cases hkn : k ≤ n
    · rw [if_pos hkn]
      rcases Nat.lt_or_ge k n with hlt | hge
      · have hmod : k % n = k := Nat.mod_eq_of_lt hlt
        rw [List.getLast?_singleton, hmod, if_neg (by omega)]
      · have hkn2 : k = n := le_antisymm hkn hge
        subst hkn2
        rw [List.getLast?_singleton, Nat.mod_self, if_pos rfl]
    · rw [if_neg hkn]
      cases hb : batchSizes n (k - n) with
      | nil => exact absurd hb (batchSizes_ne_nil hn (by omega))
      | cons b t =>
        rw [List.getLast?_cons_cons, ← hb, ih (k - n) (by omega) (by omega)]
        have hmod : (k - n) % n = k % n := by
          conv_rhs => rw [← Nat.sub_add_cancel (by omega : n ≤ k)]
          rw [Nat.add_mod_right]
        rw [hmod]

theorem bindFields_length {schema : List (String × IDataType)}
    {fields : List (String × value_type_t)}
    (h : bindFields schema = .ok fields) : fields.length = schema.length := by
  induction schema generalizing fields with
  | nil =>
    simp only [bindFields, Except.ok.injEq] at h
    subst h
    rfl
  | cons c cs ih =>
    simp only [bindFields] at h
    cases hb : bindValueType c.2 with
    | error e => simp [hb] at h
    | ok t =>
      simp only [hb] at h
      cases hrest : bindFields cs with
      | error e => simp [hrest] at h
      | ok rest =>
        simp only [hrest, Except.ok.injEq] at h
        subst h
        simp [ih hrest]

theorem bindFields_error {pre post : List (String × IDataType)} {nm : String}
    {d : IDataType} {e : Err}
    (hpre : ∀ f ∈ pre, ∃ t, bindValueType f.2 = .ok t)
    (hd : bindValueType d = .error e) :
    bindFields (pre ++ (nm, d) :: post) = .error e := by
  induction pre with
  | nil => simp [bindFields, hd]
  | cons f fs ih =>
    obtain ⟨t, ht⟩ := hpre f (List.mem_cons_self f fs)
    have ihr := ih (fun f2 hf2 => hpre f2 (List.mem_cons_of_mem f hf2))
    simp [bindFields, ht, ihr]

theorem readLoop_error {fields : List (String × value_type_t)} {maxBS : Nat} :
    ∀ {pre : List Record} {r : Record} {post : List Record} {numRows : Nat}
      {cols : List (List CHValue)} {e : Err},
    (∀ r2 ∈ pre, rowOk fields r2 = true) → numRows + pre.length < maxBS →
    rowCells fields r = .error e →
    readLoop fields maxBS (pre ++ r :: post) numRows cols = .error e := by
  intro pre
  induction pre with
  | nil =>
    intro r post numRows cols e hok hlen hr
    simp [readLoop, hr]
  | cons p ps ih =>
    intro r post numRows cols e hok hlen hr
    obtain ⟨cells, hcells⟩ := rowOk_ok (hok p (List.mem_cons_self p ps))
    have hne : ¬ (numRows + 1 = maxBS) := by
      simp only [List.length_cons] at hlen
      omega
    have hlen2 : (numRows + 1) + ps.length < maxBS := by
      simp only [List.length_cons] at hlen
      omega
    have ihr := @ih r post (numRows + 1)
      (List.zipWith (fun c x => c ++ [x]) cols cells) e
      (fun r2 hr2 => hok r2 (List.mem_cons_of_mem p hr2)) hlen2 hr
    simp [readLoop, hcells, if_neg hne, ihr]

theorem wrapUnsigned_lt (w : Nat) (n : Int) : wrapUnsigned w n < 2 ^ w := by
  unfold wrapUnsigned
  have hpos : (0 : Int) < (2 : Int) ^ w := by positivity
  have h1 : 0 ≤ n % (2 : Int) ^ w := Int.emod_nonneg n (by omega)
  have h2 : n % (2 : Int) ^ w < (2 : Int) ^ w := Int.emod_lt_of_pos n hpos
  have hcast : ((2 : Nat) ^ w : Int) = (2 : Int) ^ w := by push_cast; ring
  rw [← hcast] at h2
  omega

theorem wrapUnsigned_modEq (w : Nat) (n : Int) :
    ((wrapUnsigned w n : Nat) : Int) ≡ n [ZMOD (2 : Int) ^ w] := by
  unfold wrapUnsigned
  have hpos : (0 : Int) < (2 : Int) ^ w := by positivity
  have h1 : 0 ≤ n % (2 : Int) ^ w := Int.emod_nonneg n (by omega)
  unfold Int.ModEq
  rw [Int.toNat_of_nonneg h1, Int.emod_emod_of_dvd _ dvd_rfl]

theorem wrapUnsigned_ofNat (w m : Nat) :
    wrapUnsigned w (Int.ofNat m) = m % 2 ^ w := by
  unfold wrapUnsigned
  have hcast : ((2 : Int) ^ w) = ((2 ^ w : Nat) : Int) := by push_cast; ring
  rw [hcast]
  rw [show (Int.ofNat m) = ((m : Nat) : Int) from rfl]
  rw [← Int.natCast_mod]
  exact Int.toNat_natCast _

theorem wrapSigned_bounds (w : Nat) (hw : 0 < w) (n : Int) :
    -(2 ^ (w - 1)) ≤ wrapSigned w n ∧ wrapSigned w n < 2 ^ (w - 1) := by
  unfold wrapSigned
  have hpos : (0 : Int) < (2 : Int) ^ w := by positivity
  have h1 : 0 ≤ n % (2 : Int) ^ w := Int.emod_nonneg n (by omega)
  have h2 : n % (2 : Int) ^ w < (2 : Int) ^ w := Int.emod_lt_of_pos n hpos
  have hsplit : (2 : Int) ^ w = 2 * 2 ^ (w - 1) := by
    conv_lhs => rw [show w = (w - 1) + 1 by omega]
    ring
  rw [hsplit] at h2
  constructor <;> (split <;> omega)

theorem wrapSigned_modEq (w : Nat) (n : Int) :
    wrapSigned w n ≡ n [ZMOD (2 : Int) ^ w] := by
  unfold wrapSigned Int.ModEq
  split
  · rw [Int.emod_emod_of_dvd _ dvd_rfl]
  · rw [Int.sub_emod, Int.emod_self, sub_zero, Int.emod_emod_of_dvd _ dvd_rfl,
      Int.emod_emod_of_dvd _ dvd_rfl]

theorem produceAux_spec {fields : List (String × value_type_t)} {n : Nat}
    (hn : 0 < n) (hf : fields ≠ []) :
    ∀ fuel rs, rs.length ≤ fuel → (∀ r ∈ rs, rowOk fields r = true) →
    ∃ bs, produceBlocksAux fuel ⟨fields, rs, n⟩ = .ok (bs, ⟨fields, [], n⟩) ∧
      bs.map Block.rows = batchSizes n rs.length := by
  intro fuel
  induction fuel with
  | zero =>
    intro rs hfuel hok
    have hnil : rs = [] := List.length_eq_zero.mp (Nat.le_zero.mp hfuel)
    subst hnil
    exact ⟨[], by simp [produceBlocksAux], by simp [batchSizes_zero]⟩
  | succ fuel ih =>
    intro rs hfuel hok
    cases rs with
    | nil => exact ⟨[], by simp [produceBlocksAux], by simp [batchSizes_zero]⟩
    | cons r rs2 =>
      obtain ⟨cols2, hread, hlen2, hmap2⟩ :=
        @readImpl_spec fields (r :: rs2) n (by simp) hn hok
      have hsub : ∀ r2 ∈ (r :: rs2).drop (min n (r :: rs2).length),
          rowOk fields r2 = true :=
        fun r2 hr2 => hok r2 (List.drop_subset _ _ hr2)
      have hlendrop : ((r :: rs2).drop (min n (r :: rs2).length)).length ≤ fuel := by
        rw [List.length_drop]
        simp only [List.length_cons] at hfuel ⊢
        omega
      obtain ⟨bs, hrun, hbs⟩ := ih _ hlendrop hsub
      have hrowsB : (Block.mk cols2).rows = min n (r :: rs2).length := by
        cases cols2 with
        | nil =>
          exfalso
          apply hf
          rw [← List.length_eq_zero, ← hlen2]
          rfl
        | cons c cs =>
          have hflen : fields.length = cs.length + 1 := by
            rw [← hlen2]
            rfl
          rw [hflen, List.replicate_succ] at hmap2
          simp only [List.map_cons, List.cons.injEq] at hmap2
          exact hmap2.1
      refine ⟨Block.mk cols2 :: bs, ?_, ?_⟩
      · simp only [produceBlocksAux, hread, hrun]
      · rw [List.length_drop] at hbs
        simp only [List.map_cons, hrowsB, hbs]
        conv_rhs => rw [batchSizes_pos hn (by simp)]
        by_cases hkn : (r :: rs2).length ≤ n
        · rw [if_pos hkn, Nat.min_eq_right hkn, Nat.sub_self, batchSizes_zero]
        · rw [if_neg hkn, Nat.min_eq_left (by omega)]

/-! ## The claims -/

/-- C1: for a source with exactly k available records and maxBatchSize
n > 0 (and rows that all coerce), the stream produces no batch when
k = 0, exactly one batch of k rows followed by the exhausted terminal
state when 0 < k ≤ n, and when n < k exactly ceil(k/n) batches, each of
n rows except possibly the last, which has k mod n rows (or n when
k mod n = 0); afterwards the state is exhausted and readImpl returns
the terminal empty block. -/
theorem mongo_batch_partition (fields : List (String × value_type_t))
    (rs : List Record) (n : Nat) (hf : fields ≠ []) (hn : 0 < n)
    (hok : ∀ r ∈ rs, rowOk fields r = true) :
    ∃ bs sfin, produceBlocks ⟨fields, rs, n⟩ = .ok (bs, sfin) ∧
      sfin.records = [] ∧
      readImpl sfin = .ok (Block.mk [], sfin) ∧
      (rs.length = 0 → bs = []) ∧
      (0 < rs.length → rs.length ≤ n → bs.map Block.rows = [rs.length]) ∧
      (n < rs.length →
        bs.length = (rs.length + n - 1) / n ∧
        (∀ i, i + 1 < bs.length → (bs.map Block.rows)[i]? = some n) ∧
        (bs.map Block.rows).getLast?
          = some (if rs.length % n = 0 then n else rs.length % n)) := by
  obtain ⟨bs, hrun, hbs⟩ := produceAux_spec hn hf rs.length rs (le_refl _) hok
  have hblen : bs.length = (batchSizes n rs.length).length := by
    rw [← hbs, List.length_map]
  refine ⟨bs, ⟨fields, [], n⟩, hrun, rfl, rfl, ?_, ?_, ?_⟩
  · intro hk
    rw [hk, batchSizes_zero] at hbs
    exact List.map_eq_nil_iff.mp hbs
  · intro hk1 hk2
    rw [hbs, batchSizes_pos hn hk1, if_pos hk2]
  · intro hk
    refine ⟨?_, ?_, ?_⟩
    · rw [hblen, batchSizes_length hn]
    · intro i hi
      rw [hbs]
      exact batchSizes_mid hn rs.length i (by rw [← hblen]; exact hi)
    · rw [hbs]
      exact batchSizes_last hn rs.length (by omega)

/-- Witness for C1 at a concrete input: schema with one UInt32 column,
three records, maxBatchSize 2. -/
theorem mongo_batch_partition_witness :
    ([("a", value_type_t.UInt32)] : List (String × value_type_t)) ≠ [] ∧
    0 < 2 ∧
    (∀ r ∈ ([[("a", BSONValue.numberInt32 1)], [("a", BSONValue.numberInt32 2)],
        [("a", BSONValue.numberInt32 3)]] : List Record),
      rowOk [("a", value_type_t.UInt32)] r = true) ∧
    (∃ bs sfin,
      produceBlocks ⟨[("a", value_type_t.UInt32)],
        [[("a", BSONValue.numberInt32 1)], [("a", BSONValue.numberInt32 2)],
          [("a", BSONValue.numberInt32 3)]], 2⟩ = .ok (bs, sfin) ∧
      sfin.records = [] ∧
      readImpl sfin = .ok (Block.mk [], sfin) ∧
      (([[("a", BSONValue.numberInt32 1)], [("a", BSONValue.numberInt32 2)],
          [("a", BSONValue.numberInt32 3)]] : List Record).length = 0 → bs = []) ∧
      (0 < ([[("a", BSONValue.numberInt32 1)], [("a", BSONValue.numberInt32 2)],
          [("a", BSONValue.numberInt32 3)]] : List Record).length →
        ([[("a", BSONValue.numberInt32 1)], [("a", BSONValue.numberInt32 2)],
          [("a", BSONValue.numberInt32 3)]] : List Record).length ≤ 2 →
        bs.map Block.rows
          = [([[("a", BSONValue.numberInt32 1)], [("a", BSONValue.numberInt32 2)],
              [("a", BSONValue.numberInt32 3)]] : List Record).length]) ∧
      (2 < ([[("a", BSONValue.numberInt32 1)], [("a", BSONValue.numberInt32 2)],
          [("a", BSONValue.numberInt32 3)]] : List Record).length →
        bs.length
          = (([[("a", BSONValue.numberInt32 1)], [("a", BSONValue.numberInt32 2)],
              [("a", BSONValue.numberInt32 3)]] : List Record).length + 2 - 1) / 2 ∧
        (∀ i, i + 1 < bs.length → (bs.map Block.rows)[i]? = some 2) ∧
        (bs.map Block.rows).getLast?
          = some (if ([[("a", BSONValue.numberInt32 1)],
              [("a", BSONValue.numberInt32 2)],
              [("a", BSONValue.numberInt32 3)]] : List Record).length % 2 = 0
            then 2
            else ([[("a", BSONValue.numberInt32 1)],
              [("a", BSONValue.numberInt32 2)],
              [("a", BSONValue.numberInt32 3)]] : List Record).length % 2))) :=
  ⟨by decide, by decide, by decide,
    mongo_batch_partition _ _ _ (by decide) (by decide) (by decide)⟩

/-- C2 counterexample: the claim includes the terminal batch returned
once the source is exhausted, but that batch is the column-less empty
block {} (readImpl line 102), so for a one-field schema its column
count is 0, not 1. -/
theorem mongo_batch_shape_cex :
    readImpl ⟨[("a", value_type_t.UInt32)], [], 2⟩
      = .ok (Block.mk [], ⟨[("a", value_type_t.UInt32)], [], 2⟩) ∧
    (Block.mk ([] : List (List CHValue))).columns.length = 0 ∧
    ([("a", value_type_t.UInt32)] : List (String × value_type_t)).length = 1 :=
  ⟨rfl, rfl, rfl⟩

/-- C2 amended: for every schema S and maxBatchSize n > 0, every batch
produced while the source is not yet exhausted has exactly the schema's
number of columns and all its columns have equal length at most n; the
terminal result signalling exhaustion is the empty block with no
columns. -/
theorem mongo_batch_shape (cursor : List Record)
    (schema : List (String × IDataType)) (n : Nat) (s : StreamState)
    (hn : 0 < n) (hc : cursor ≠ [])
    (hmk : mkStream cursor schema n = .ok s)
    (hok : ∀ r ∈ s.records, rowOk s.fields r = true) :
    ∃ b s2, readImpl s = .ok (b, s2) ∧
      b.columns.length = schema.length ∧
      (∀ c ∈ b.columns, c.length = min n cursor.length) ∧
      min n cursor.length ≤ n := by
  cases cursor with
  | nil => exact absurd rfl hc
  | cons r cs =>
    simp only [mkStream] at hmk
    cases hb : bindFields schema with
    | error e => simp [hb] at hmk
    | ok fields =>
      simp only [hb, Except.ok.injEq] at hmk
      subst hmk
      obtain ⟨cols2, hread, hlen2, hmap2⟩ :=
        @readImpl_spec fields (r :: cs) n (by simp) hn hok
      refine ⟨Block.mk cols2, _, hread, ?_, ?_, Nat.min_le_left _ _⟩
      · rw [hlen2]
        exact bindFields_length hb
      · intro c hcmem
        have hmem2 : c.length ∈ cols2.map List.length := List.mem_map_of_mem _ hcmem
        rw [hmap2] at hmem2
        exact List.eq_of_mem_replicate hmem2

/-- Witness for the amended C2: one UInt32 column, one record,
maxBatchSize 2. -/
theorem mongo_batch_shape_witness :
    0 < 2 ∧
    ([[("a", BSONValue.numberInt32 7)]] : List Record) ≠ [] ∧
    mkStream [[("a", BSONValue.numberInt32 7)]] [("a", IDataType.UInt32)] 2
      = .ok ⟨[("a", value_type_t.UInt32)], [[("a", BSONValue.numberInt32 7)]], 2⟩ ∧
    (∀ r ∈ (⟨[("a", value_type_t.UInt32)], [[("a", BSONValue.numberInt32 7)]],
        2⟩ : StreamState).records,
      rowOk (⟨[("a", value_type_t.UInt32)], [[("a", BSONValue.numberInt32 7)]],
        2⟩ : StreamState).fields r = true) ∧
    (∃ b s2, readImpl ⟨[("a", value_type_t.UInt32)],
        [[("a", BSONValue.numberInt32 7)]], 2⟩ = .ok (b, s2) ∧
      b.columns.length = ([("a", IDataType.UInt32)]
        : List (String × IDataType)).length ∧
      (∀ c ∈ b.columns,
        c.length = min 2 ([[("a", BSONValue.numberInt32 7)]] : List Record).length) ∧
      min 2 ([[("a", BSONValue.numberInt32 7)]] : List Record).length ≤ 2) :=
  ⟨by decide, by decide, rfl, by decide,
    mongo_batch_shape _ _ _ _ (by decide) (by decide) rfl (by decide)⟩

/-- C3 counterexample: for a cursor that reports no rows available at
construction time, the constructor returns before binding any type
(source lines 43-44), so construction succeeds even though the schema
holds a descriptor with no scalar-kind mapping — the claim says it
must fail with UnsupportedType for every cursor. -/
theorem mongo_construction_unsupported_cex :
    mkStream [] [("x", IDataType.other "Array")] 1
      = .ok ⟨[], [], 1⟩ := rfl

/-- C3 amended: for every cursor that reports rows available at
construction and every schema containing a field (after any run of
mappable fields) whose type descriptor has no scalar-kind mapping,
construction fails with UnsupportedType naming the descriptor, and no
record is read from the source (mkStream consults only the emptiness
of the cursor); when the cursor reports no rows at construction, the
constructor returns successfully without binding any type. -/
theorem mongo_construction_unsupported (cursor : List Record)
    (pre post : List (String × IDataType)) (nm : String) (d : IDataType)
    (n : Nat) (hc : cursor ≠ [])
    (hpre : ∀ f ∈ pre, ∃ t, bindValueType f.2 = .ok t)
    (hd : bindValueType d = .error (.unsupportedType (dataTypeName d))) :
    mkStream cursor (pre ++ (nm, d) :: post) n
      = .error (.unsupportedType (dataTypeName d)) := by
  cases cursor with
  | nil => exact absurd rfl hc
  | cons r cs =>
    have hbf := @bindFields_error pre post nm d
      (.unsupportedType (dataTypeName d)) hpre hd
    simp [mkStream, hbf]

/-- Witness for the amended C3: one-record cursor, one mappable field
followed by a field with an unmapped descriptor. -/
theorem mongo_construction_unsupported_witness :
    ([[("k", BSONValue.numberInt32 1)]] : List Record) ≠ [] ∧
    (∀ f ∈ ([("k", IDataType.UInt64)] : List (String × IDataType)),
      ∃ t, bindValueType f.2 = .ok t) ∧
    bindValueType (IDataType.other "Array")
      = .error (.unsupportedType (dataTypeName (IDataType.other "Array"))) ∧
    mkStream [[("k", BSONValue.numberInt32 1)]]
      ([("k", IDataType.UInt64)] ++ ("x", IDataType.other "Array") :: [])
      1 = .error (.unsupportedType (dataTypeName (IDataType.other "Array"))) :=
  ⟨by decide, fun f hf => by
      simp only [List.mem_singleton] at hf
      subst hf
      exact ⟨value_type_t.UInt64, rfl⟩,
    rfl,
    mongo_construction_unsupported _ _ _ _ _ _ (by decide)
      (fun f hf => by
        simp only [List.mem_singleton] at hf
        subst hf
        exact ⟨value_type_t.UInt64, rfl⟩)
      rfl⟩

/-- C4: the scalar-kind mapping is not total over the thirteen
descriptors — the branch meant for DataTypeFloat64 repeats the
DataTypeInt64 test (source line 71), which can never match there, so a
Float64 descriptor falls through to the Unsupported type exception and
stream construction fails; the spec (two floating-point widths, and
the dead push of value_type_t::Float64 itself) shows the intent was to
bind Float64.  The code, not the claim, is wrong. -/
theorem mongo_float64_descriptor_rejected :
    bindValueType IDataType.Float64
      = .error (.unsupportedType "Float64") ∧
    mkStream [[("x", BSONValue.numberDouble 1)]] [("x", IDataType.Float64)] 1
      = .error (.unsupportedType "Float64") :=
  ⟨rfl, rfl⟩

/-- C5: for a UInt8-kind field, a non-boolean value fails with
TypeMismatch and booleans coerce to 1/0 — but the coerced value is
appended through a cast of the column to ColumnFloat64 (source line
147), not through the field's ColumnUInt8, while the default path for
the same kind does use ColumnUInt8.  The claim describes the intent;
the cast in the code is the slip. -/
theorem mongo_uint8_bool_coercion :
    insertValue value_type_t.UInt8 (BSONValue.boolean true)
      = .ok (CHValue.float64 1) ∧
    insertValue value_type_t.UInt8 (BSONValue.boolean false)
      = .ok (CHValue.float64 0) ∧
    insertValue value_type_t.UInt8 (BSONValue.numberInt32 1)
      = .error (.typeMismatch "Bool" "NumberInt") ∧
    insertValue value_type_t.UInt8 (BSONValue.string "true")
      = .error (.typeMismatch "Bool" "String") ∧
    insertDefaultValue value_type_t.UInt8 = CHValue.uint8 0 := by
  refine ⟨rfl, rfl, rfl, rfl, rfl⟩

/-- C6: once readImpl has returned the column-less empty terminal block
(for a stream with at least one schema field), the cursor is already
exhausted, the state is unchanged, and every subsequent call returns
the same empty result without consuming any record. -/
theorem mongo_exhaustion_idempotent (fields : List (String × value_type_t))
    (records : List Record) (n : Nat) (b : Block) (s2 : StreamState)
    (hf : fields ≠ [])
    (h : readImpl ⟨fields, records, n⟩ = .ok (b, s2)) (hb : b.columns = []) :
    s2 = ⟨fields, records, n⟩ ∧ records = [] ∧ b = Block.mk [] ∧
    readImpl s2 = .ok (Block.mk [], s2) := by
  cases records with
  | nil =>
    have h2 : (Except.ok (Block.mk ([] : List (List CHValue)),
        (⟨fields, [], n⟩ : StreamState)) : Except Err (Block × StreamState))
        = .ok (b, s2) := h
    simp only [Except.ok.injEq, Prod.mk.injEq] at h2
    obtain ⟨hb2, hs2⟩ := h2
    refine ⟨hs2.symm, rfl, hb2.symm, ?_⟩
    rw [← hs2]
    rfl
  | cons r rs2 =>
    exfalso
    simp only [readImpl] at h
    cases hloop : readLoop fields n (r :: rs2) 0
        (List.replicate fields.length ([] : List CHValue)) with
    | error e => simp [hloop] at h
    | ok p =>
      obtain ⟨cols, rest⟩ := p
      rw [hloop] at h
      simp only [Except.ok.injEq, Prod.mk.injEq] at h
      have hlen := readLoop_length hloop (by simp)
      apply hf
      rw [← List.length_eq_zero, ← hlen]
      have hcols : cols = b.columns := congrArg Block.columns h.1
      rw [hcols, hb]
      rfl

/-- Witness for C6: an exhausted stream with one schema field. -/
theorem mongo_exhaustion_idempotent_witness :
    ([("a", value_type_t.UInt32)] : List (String × value_type_t)) ≠ [] ∧
    readImpl ⟨[("a", value_type_t.UInt32)], [], 3⟩
      = .ok (Block.mk [], ⟨[("a", value_type_t.UInt32)], [], 3⟩) ∧
    (Block.mk ([] : List (List CHValue))).columns = [] ∧
    ((⟨[("a", value_type_t.UInt32)], [], 3⟩ : StreamState)
        = ⟨[("a", value_type_t.UInt32)], [], 3⟩ ∧
      ([] : List Record) = [] ∧
      Block.mk ([] : List (List CHValue)) = Block.mk [] ∧
      readImpl ⟨[("a", value_type_t.UInt32)], [], 3⟩
        = .ok (Block.mk [], ⟨[("a", value_type_t.UInt32)], [], 3⟩)) :=
  ⟨by decide, rfl, rfl,
    mongo_exhaustion_idempotent _ _ _ _ _ (by decide) rfl rfl⟩

/-- C7: for every record and every schema field absent from it, the
cell appended to that field's column for that row is exactly the zero
value of the field's scalar kind, independent of the record's other
fields and of the rest of the batch. -/
theorem mongo_absent_field_default (fields : List (String × value_type_t))
    (r : Record) (rs : List Record) (n : Nat) (idx : Nat) (nm : String)
    (t : value_type_t) (b : Block) (s2 : StreamState)
    (hidx : fields[idx]? = some (nm, t))
    (habs : lookupField r nm = none)
    (h : readImpl ⟨fields, r :: rs, n⟩ = .ok (b, s2)) :
    (b.columns[idx]?.bind (fun col => col[0]?))
      = some (insertDefaultValue t) ∧
    insertDefaultValue t = zeroScalar t := by
  refine ⟨?_, by cases t <;> rfl⟩
  simp only [readImpl] at h
  cases hloop : readLoop fields n (r :: rs) 0
      (List.replicate fields.length ([] : List CHValue)) with
  | error e => simp [hloop] at h
  | ok p =>
    obtain ⟨cols, rest⟩ := p
    rw [hloop] at h
    simp only [Except.ok.injEq, Prod.mk.injEq] at h
    have hbcols : b.columns = cols := (congrArg Block.columns h.1).symm
    simp only [readLoop] at hloop
    cases hcells : rowCells fields r with
    | error e => simp [hcells] at hloop
    | ok cells =>
      simp only [hcells] at hloop
      obtain ⟨c0, hc0, hcoerce⟩ := rowCells_get hcells hidx
      have hc0val : c0 = insertDefaultValue t := by
        simp only [coerceField, habs, Except.ok.injEq] at hcoerce
        exact hcoerce.symm
      subst hc0val
      have hidxlt : idx < fields.length :=
        List.getElem?_eq_some.mp hidx |>.choose
      have hstart : (List.replicate fields.length ([] : List CHValue))[idx]?
          = some [] := by
        rw [List.getElem?_eq_getElem (by simpa using hidxlt)]
        simp
      have hzip : (List.zipWith (fun c x => c ++ [x])
          (List.replicate fields.length ([] : List CHValue)) cells)[idx]?
          = some [insertDefaultValue t] := by
        rw [List.getElem?_zipWith', hstart, hc0]
        rfl
      have hzlen : (List.zipWith (fun c x => c ++ [x])
          (List.replicate fields.length ([] : List CHValue)) cells).length
          = fields.length := by
        rw [List.length_zipWith, List.length_replicate, rowCells_length hcells]
        exact Nat.min_self _
      by_cases hstop : 0 + 1 = n
      · rw [if_pos hstop] at hloop
        simp only [Except.ok.injEq, Prod.mk.injEq] at hloop
        rw [hbcols, ← hloop.1]
        simp [hzip]
      · rw [if_neg hstop] at hloop
        obtain ⟨tail, htail⟩ :=
          readLoop_extends hloop hzlen idx [insertDefaultValue t] hzip
        rw [hbcols, htail]
        simp

/-- C7 witness: a two-field schema where the second field is absent
from the only record. -/
theorem mongo_absent_field_default_witness :
    ([("a", value_type_t.UInt32), ("b", value_type_t.String)]
        : List (String × value_type_t))[1]? = some ("b", value_type_t.String) ∧
    lookupField [("a", BSONValue.numberInt32 5)] "b" = none ∧
    readImpl ⟨[("a", value_type_t.UInt32), ("b", value_type_t.String)],
        [[("a", BSONValue.numberInt32 5)]], 3⟩
      = .ok (Block.mk [[CHValue.uint32 5], [CHValue.string ""]],
          ⟨[("a", value_type_t.UInt32), ("b", value_type_t.String)], [], 3⟩) ∧
    (((Block.mk [[CHValue.uint32 5], [CHValue.string ""]]).columns[1]?.bind
        (fun col => col[0]?)) = some (insertDefaultValue value_type_t.String) ∧
      insertDefaultValue value_type_t.String = zeroScalar value_type_t.String) :=
  ⟨by decide, by decide, rfl,
    mongo_absent_field_default
      [("a", value_type_t.UInt32), ("b", value_type_t.String)]
      [("a", BSONValue.numberInt32 5)] [] 3 1 "b" value_type_t.String
      (Block.mk [[CHValue.uint32 5], [CHValue.string ""]])
      ⟨[("a", value_type_t.UInt32), ("b", value_type_t.String)], [], 3⟩
      (by decide) (by decide) rfl⟩

/-- C8: for Date-kind and DateTime-kind fields, a present value whose
runtime tag is not Date fails with TypeMismatch carrying the actual
tag; a Date value with timestamp millis yields, for Date, the
day-number of the timestamp truncated to day granularity (seconds
divided by 86400) and, for DateTime, the timestamp truncated to whole
seconds (these in-range cases show the conversions themselves; the
out-of-range wrapping is the subject of C10). -/
theorem mongo_date_coercion :
    (∀ v : BSONValue, v.type ≠ BSONType.Date →
      insertValue value_type_t.Date v
          = .error (.typeMismatch "Date" (typeName v.type)) ∧
      insertValue value_type_t.DateTime v
          = .error (.typeMismatch "Date" (typeName v.type))) ∧
    (∀ millis : Nat,
      (millis / 1000 / 86400 < 65536 →
        insertValue value_type_t.Date (BSONValue.date millis)
          = .ok (CHValue.uint16 (millis / 1000 / 86400))) ∧
      (millis / 1000 < 4294967296 →
        insertValue value_type_t.DateTime (BSONValue.date millis)
          = .ok (CHValue.uint32 (millis / 1000)))) := by
  constructor
  · intro v hv
    constructor
    · simp only [insertValue]
      rw [if_pos hv]
    · simp only [insertValue]
      rw [if_pos hv]
  · intro millis
    constructor
    · intro hlt
      simp only [insertValue]
      rw [if_neg (by simp [BSONValue.type])]
      simp only [BSONValue.dateToTimeT, toDayNum]
      rw [wrapUnsigned_ofNat]
      rw [Nat.mod_eq_of_lt (by norm_num at hlt ⊢; omega)]
    · intro hlt
      simp only [insertValue]
      rw [if_neg (by simp [BSONValue.type])]
      simp only [BSONValue.dateToTimeT]
      rw [wrapUnsigned_ofNat]
      rw [Nat.mod_eq_of_lt (by norm_num at hlt ⊢; omega)]

/-- C8 witness: a non-Date value, and the timestamp of day 100. -/
theorem mongo_date_coercion_witness :
    insertValue value_type_t.Date (BSONValue.numberInt32 5)
      = .error (.typeMismatch "Date" "NumberInt") ∧
    insertValue value_type_t.DateTime (BSONValue.numberInt32 5)
      = .error (.typeMismatch "Date" "NumberInt") ∧
    insertValue value_type_t.Date (BSONValue.date 8640000000)
      = .ok (CHValue.uint16 100) ∧
    insertValue value_type_t.DateTime (BSONValue.date 8640000000)
      = .ok (CHValue.uint32 8640000) := by
  refine ⟨?_, ?_, ?_, ?_⟩
  · exact (mongo_date_coercion.1 (BSONValue.numberInt32 5) (by decide)).1
  · exact (mongo_date_coercion.1 (BSONValue.numberInt32 5) (by decide)).2
  · have := (mongo_date_coercion.2 8640000000).1 (by norm_num)
    simpa using this
  · have := (mongo_date_coercion.2 8640000000).2 (by norm_num)
    simpa using this

/-- C9: every numeric scalar kind rejects a present value whose runtime
tag is not a number (a string in particular) with TypeMismatch carrying
the expected representation and the actual tag, with no parsing
fallback; and a row whose coercion fails anywhere aborts the whole
in-progress readImpl call with that error — no partial batch is
returned. -/
theorem mongo_numeric_tag_mismatch :
    (∀ (t : value_type_t) (v : BSONValue), isNumericKind t = true →
      v.isNumber = false →
      insertValue t v = .error (.typeMismatch "a number" (typeName v.type))) ∧
    (∀ (fields : List (String × value_type_t)) (pre : List Record) (r : Record)
        (post : List Record) (n : Nat) (e : Err),
      (∀ r2 ∈ pre, rowOk fields r2 = true) → pre.length < n →
      rowCells fields r = .error e →
      readImpl ⟨fields, pre ++ r :: post, n⟩ = .error e) := by
  constructor
  · intro t v ht hv
    cases t with
    | UInt8 => exact absurd ht (by decide)
    | String => exact absurd ht (by decide)
    | Date => exact absurd ht (by decide)
    | DateTime => exact absurd ht (by decide)
    | UInt16 => simp only [insertValue]; rw [if_pos (by simp [hv])]
    | UInt32 => simp only [insertValue]; rw [if_pos (by simp [hv])]
    | UInt64 => simp only [insertValue]; rw [if_pos (by simp [hv])]
    | Int8 => simp only [insertValue]; rw [if_pos (by simp [hv])]
    | Int16 => simp only [insertValue]; rw [if_pos (by simp [hv])]
    | Int32 => simp only [insertValue]; rw [if_pos (by simp [hv])]
    | Int64 => simp only [insertValue]; rw [if_pos (by simp [hv])]
    | Float32 => simp only [insertValue]; rw [if_pos (by simp [hv])]
    | Float64 => simp only [insertValue]; rw [if_pos (by simp [hv])]
  · intro fields pre r post n e hok hlen hr
    have hrl := @readLoop_error fields n pre r post 0
      (List.replicate fields.length ([] : List CHValue)) e hok (by omega) hr
    cases hp : pre ++ r :: post with
    | nil => exact absurd hp (by simp)
    | cons a l =>
      simp only [readImpl, hp]
      rw [← hp, hrl]

/-- C9 witness: a string value under the Int32 kind, and a stream whose
second record holds a string in a UInt32 field. -/
theorem mongo_numeric_tag_mismatch_witness :
    isNumericKind value_type_t.Int32 = true ∧
    (BSONValue.string "x").isNumber = false ∧
    insertValue value_type_t.Int32 (BSONValue.string "x")
      = .error (.typeMismatch "a number" (typeName (BSONValue.string "x").type)) ∧
    (∀ r2 ∈ ([[("a", BSONValue.numberInt32 1)]] : List Record),
      rowOk [("a", value_type_t.UInt32)] r2 = true) ∧
    ([[("a", BSONValue.numberInt32 1)]] : List Record).length < 5 ∧
    rowCells [("a", value_type_t.UInt32)] [("a", BSONValue.string "no")]
      = .error (.typeMismatch "a number" "String") ∧
    readImpl ⟨[("a", value_type_t.UInt32)],
        [[("a", BSONValue.numberInt32 1)]]
          ++ [("a", BSONValue.string "no")] :: [], 5⟩
      = .error (.typeMismatch "a number" "String") :=
  ⟨by decide, by decide,
    mongo_numeric_tag_mismatch.1 value_type_t.Int32 (BSONValue.string "x")
      (by decide) (by decide),
    by decide, by decide, rfl,
    mongo_numeric_tag_mismatch.2 _ _ _ _ _ _ (by decide) (by decide) rfl⟩

/-- C10: narrowing wraps modulo the target column width — a Date
day-number d ≥ 2^16 is stored as d mod 2^16; a DateTime timestamp is
stored as its whole seconds mod 2^32; and for the narrow integer kinds
the 32-bit truncated number (numberInt) is stored congruent to it
modulo 2^w, inside the kind's representable range. -/
theorem mongo_narrowing_mod :
    (∀ millis : Nat, 65536 ≤ millis / 1000 / 86400 →
      insertValue value_type_t.Date (BSONValue.date millis)
        = .ok (CHValue.uint16 (millis / 1000 / 86400 % 65536))) ∧
    (∀ millis : Nat,
      insertValue value_type_t.DateTime (BSONValue.date millis)
        = .ok (CHValue.uint32 (millis / 1000 % 4294967296))) ∧
    (∀ v : BSONValue, v.isNumber = true →
      (∃ a : Nat, insertValue value_type_t.UInt16 v = .ok (CHValue.uint16 a) ∧
        a < 65536 ∧ (a : Int) ≡ v.numberInt [ZMOD 65536]) ∧
      (∃ a : Int, insertValue value_type_t.Int8 v = .ok (CHValue.int8 a) ∧
        -128 ≤ a ∧ a < 128 ∧ a ≡ v.numberInt [ZMOD 256]) ∧
      (∃ a : Int, insertValue value_type_t.Int16 v = .ok (CHValue.int16 a) ∧
        -32768 ≤ a ∧ a < 32768 ∧ a ≡ v.numberInt [ZMOD 65536]) ∧
      (∃ a : Int, insertValue value_type_t.Int32 v = .ok (CHValue.int32 a) ∧
        -2147483648 ≤ a ∧ a < 2147483648 ∧
        a ≡ v.numberInt [ZMOD 4294967296])) := by
  refine ⟨?_, ?_, ?_⟩
  · intro millis hge
    simp only [insertValue]
    rw [if_neg (by simp [BSONValue.type])]
    simp only [BSONValue.dateToTimeT, toDayNum]
    rw [wrapUnsigned_ofNat]
    norm_num
  · intro millis
    simp only [insertValue]
    rw [if_neg (by simp [BSONValue.type])]
    simp only [BSONValue.dateToTimeT]
    rw [wrapUnsigned_ofNat]
    norm_num
  · intro v hv
    have hrepr : ∃ m : Int, v.numberInt = wrapSigned 32 m := by
      cases v with
      | numberInt32 m => exact ⟨m, rfl⟩
      | numberInt64 m => exact ⟨m, rfl⟩
      | numberDouble m => exact ⟨m, rfl⟩
      | boolean b => simp [BSONValue.isNumber] at hv
      | string a => simp [BSONValue.isNumber] at hv
      | date a => simp [BSONValue.isNumber] at hv
      | other a => simp [BSONValue.isNumber] at hv
    obtain ⟨m, hm⟩ := hrepr
    refine ⟨⟨wrapUnsigned 16 v.numberInt, ?_, ?_, ?_⟩,
      ⟨wrapSigned 8 v.numberInt, ?_, ?_, ?_, ?_⟩,
      ⟨wrapSigned 16 v.numberInt, ?_, ?_, ?_, ?_⟩,
      ⟨v.numberInt, ?_, ?_, ?_, ?_⟩⟩
    · simp only [insertValue]
      rw [if_neg (by simp [hv])]
    · have := wrapUnsigned_lt 16 v.numberInt
      norm_num at this
      exact this
    · have := wrapUnsigned_modEq 16 v.numberInt
      norm_num at this
      exact this
    · simp only [insertValue]
      rw [if_neg (by simp [hv])]
    · have := (wrapSigned_bounds 8 (by norm_num) v.numberInt).1
      norm_num at this
      exact this
    · have := (wrapSigned_bounds 8 (by norm_num) v.numberInt).2
      norm_num at this
      exact this
    · have := wrapSigned_modEq 8 v.numberInt
      norm_num at this
      exact this
    · simp only [insertValue]
      rw [if_neg (by simp [hv])]
    · have := (wrapSigned_bounds 16 (by norm_num) v.numberInt).1
      norm_num at this
      exact this
    · have := (wrapSigned_bounds 16 (by norm_num) v.numberInt).2
      norm_num at this
      exact this
    · have := wrapSigned_modEq 16 v.numberInt
      norm_num at this
      exact this
    · simp only [insertValue]
      rw [if_neg (by simp [hv])]
    · rw [hm]
      have := (wrapSigned_bounds 32 (by norm_num) m).1
      norm_num at this
      exact this
    · rw [hm]
      have := (wrapSigned_bounds 32 (by norm_num) m).2
      norm_num at this
      exact this
    · exact Int.ModEq.refl _

/-- C10 witness: day-number 80000 wraps to 14464 in the UInt16 Date
column, and a 64-bit 70000 under the UInt16 kind. -/
theorem mongo_narrowing_mod_witness :
    65536 ≤ (6912000000000 : Nat) / 1000 / 86400 ∧
    insertValue value_type_t.Date (BSONValue.date 6912000000000)
      = .ok (CHValue.uint16 14464) ∧
    insertValue value_type_t.DateTime (BSONValue.date 6912000000000)
      = .ok (CHValue.uint32 (6912000000000 / 1000 % 4294967296)) ∧
    (∃ a : Nat, insertValue value_type_t.UInt16 (BSONValue.numberInt64 70000)
      = .ok (CHValue.uint16 a) ∧ a < 65536 ∧
      (a : Int) ≡ (BSONValue.numberInt64 70000).numberInt [ZMOD 65536]) := by
  refine ⟨by norm_num, ?_, ?_, ?_⟩
  · have := mongo_narrowing_mod.1 6912000000000 (by norm_num)
    simpa using this
  · exact mongo_narrowing_mod.2.1 6912000000000
  · exact (mongo_narrowing_mod.2.2 (BSONValue.numberInt64 70000) (by decide)).1

end MongoDB
